import Mathlib

/-!
Verification of the numerical smoothing core of `safe/gis/raster/contour.py`:
the Gaussian kernel builder, the reflective 3x3 tiling of a 2-D grid, and the
masked/unmasked convolution in its two execution modes, together with the
smoothing decision of `create_contour`.

Arrays are modelled as a shape (`rows`, `cols`) together with a total data
function on natural indices; the floating-point arithmetic of the source is
modelled by exact arithmetic in a linear ordered field (rationals for concrete
evaluations, reals for the Gaussian kernel).
-/

namespace Inasafe

/-- A 2-D array: a shape together with a total indexing function.  Only the
indices below `rows`/`cols` are meaningful. -/
structure Grid (α : Type*) where
  rows : ℕ
  cols : ℕ
  data : ℕ → ℕ → α

attribute [ext] Grid

/-- Sum of all entries of a grid (the model of `np.sum`). -/
def gridSum {α : Type*} [AddCommMonoid α] (g : Grid α) : α :=
  ∑ k ∈ Finset.range g.rows, ∑ l ∈ Finset.range g.cols, g.data k l

/-- Model of `np.tile(input, (3, 3))`: entry `(p, q)` holds `input[p mod rows, q mod cols]`. -/
def tile0 {α : Type*} (g : Grid α) : ℕ → ℕ → α :=
  fun p q => g.data (p % g.rows) (q % g.cols)

/-- After the first loop of `tile_and_reflect`: the left-hand tiles
(columns `[0, cols)`) and the right-hand tiles (columns `[2*cols, 3*cols)`)
of every band are flipped left-to-right. -/
def tile1 {α : Type*} (g : Grid α) : ℕ → ℕ → α :=
  fun p q =>
    if q < g.cols then tile0 g p (g.cols - 1 - q)
    else if 2 * g.cols ≤ q then tile0 g p (5 * g.cols - 1 - q)
    else tile0 g p q

/-- After the second loop of `tile_and_reflect`: the top tiles
(rows `[0, rows)`) and the bottom tiles (rows `[2*rows, 3*rows)`) are flipped
up-to-down, acting on the result of the first loop. -/
def tile2 {α : Type*} (g : Grid α) : ℕ → ℕ → α :=
  fun p q =>
    if p < g.rows then tile1 g (g.rows - 1 - p) q
    else if 2 * g.rows ≤ p then tile1 g (5 * g.rows - 1 - p) q
    else tile1 g p q

/-- Model of `tile_and_reflect`: 3x3 tiling of the input whose central tile is the
input and whose surrounding tiles are reflections. -/
def tile_and_reflect {α : Type*} (g : Grid α) : Grid α :=
  ⟨3 * g.rows, 3 * g.cols, tile2 g⟩

/-- The window of the tiled mask that overlaps the kernel when the centre
pixel is at tiled position `(i, j)`: window entry `(k, l)` reads tiled
position `(i + k - hwr, j + l - hwc)`. -/
def window_mask (tm : Grid Bool) (hwr hwc i j : ℕ) : ℕ → ℕ → Bool :=
  fun k l => tm.data (i + k - hwr) (j + l - hwc)

/-- Model of `clobber_total = np.sum(weights[overlapping_mask])`: the kernel mass
sitting on masked window positions. -/
def clobber_total {α : Type*} [AddCommMonoid α] (w : Grid α) (om : ℕ → ℕ → Bool) : α :=
  ∑ k ∈ Finset.range w.rows, ∑ l ∈ Finset.range w.cols,
    if om k l then w.data k l else 0

/-- Model of `remaining_num = np.sum(np.logical_not(overlapping_mask))`: the number of
unmasked window positions. -/
def remaining_num {α : Type*} (w : Grid α) (om : ℕ → ℕ → Bool) : ℕ :=
  ((Finset.range w.rows ×ˢ Finset.range w.cols).filter fun p => om p.1 p.2 = false).card

/-- Model of `correction = clobber_total / remaining_num`. -/
def correction {α : Type*} [Field α] (w : Grid α) (om : ℕ → ℕ → Bool) : α :=
  clobber_total w om / (remaining_num w om : α)

/-- The working kernel `tmp_weights`: a copy of the kernel with masked
positions zeroed, and the correction then added to every entry that is still
nonzero. -/
def working_weights {α : Type*} [Field α] [DecidableEq α]
    (w : Grid α) (om : ℕ → ℕ → Bool) : ℕ → ℕ → α :=
  fun k l =>
    if om k l then 0
    else if w.data k l = 0 then 0
    else w.data k l + correction w om

/-- Model of `np.sum(tmp_weights)`: the total of the working kernel, the quantity the
internal consistency assertion compares with 1. -/
def working_kernel_total {α : Type*} [Field α] [DecidableEq α]
    (w : Grid α) (om : ℕ → ℕ → Bool) : α :=
  ∑ k ∈ Finset.range w.rows, ∑ l ∈ Finset.range w.cols, working_weights w om k l

/-- The reference (slow) mode value of one output cell: explicit iteration
over every kernel element, accumulating `tiled_input[m, n] * weights[k, l]`. -/
def slowSum {α : Type*} [Field α] (input weights : Grid α) (io jo : ℕ) : α :=
  ∑ k ∈ Finset.range weights.rows, ∑ l ∈ Finset.range weights.cols,
    (tile_and_reflect input).data
      (input.rows + io + k - weights.rows / 2)
      (input.cols + jo + l - weights.cols / 2) * weights.data k l

/-- The windowed mode value of one output cell: elementwise product of the
(possibly corrected) kernel `tw` with the overlapping window of the tiled
input, summed. -/
def windowSum {α : Type*} [Field α] (input weights : Grid α)
    (tw : ℕ → ℕ → α) (io jo : ℕ) : α :=
  ∑ k ∈ Finset.range weights.rows, ∑ l ∈ Finset.range weights.cols,
    tw k l * (tile_and_reflect input).data
      (input.rows + io + k - weights.rows / 2)
      (input.cols + jo + l - weights.cols / 2)

/-- The value `convolve` computes for the output cell `(io, jo)`: masked
cells are passed through unchanged, otherwise the slow or the windowed sum is
taken, the latter with the working kernel when a mask is present. -/
def convolve_cell {α : Type*} [Field α] [DecidableEq α]
    (input weights : Grid α) (mask : Option (Grid Bool)) (slow : Bool)
    (io jo : ℕ) : α :=
  match mask with
  | some m =>
    if (tile_and_reflect m).data (input.rows + io) (input.cols + jo) then
      input.data io jo
    else if slow then
      slowSum input weights io jo
    else
      windowSum input weights
        (working_weights weights
          (window_mask (tile_and_reflect m) (weights.rows / 2) (weights.cols / 2)
            (input.rows + io) (input.cols + jo))) io jo
  | none =>
    if slow then slowSum input weights io jo
    else windowSum input weights weights.data io jo

/-- Model of `convolve`: output has the shape of the input, starts as a copy of the
input, and every cell of the central region is recomputed by
`convolve_cell`. -/
def convolve {α : Type*} [Field α] [DecidableEq α]
    (input weights : Grid α) (mask : Option (Grid Bool) := none)
    (slow : Bool := false) : Grid α :=
  ⟨input.rows, input.cols, fun io jo =>
    if io < input.rows ∧ jo < input.cols then
      convolve_cell input weights mask slow io jo
    else input.data io jo⟩

/-- The precondition checks at the top of `convolve`, modelled as a boolean
guard: kernel dimensions below grid dimension + 1, no mask together with the
slow mode, and mask shape equal to the grid shape. -/
def convolve_pre_check {α : Type*} (input weights : Grid α)
    (mask : Option (Grid Bool)) (slow : Bool) : Bool :=
  decide (weights.rows < input.rows + 1) &&
  decide (weights.cols < input.cols + 1) &&
  (match mask with
   | none => true
   | some m => !slow && decide (m.rows = input.rows) && decide (m.cols = input.cols))

/-- Model of `convolve` with its fail-fast precondition assertions: an invalid input
produces no output grid at all. -/
def convolve_checked {α : Type*} [Field α] [DecidableEq α]
    (input weights : Grid α) (mask : Option (Grid Bool)) (slow : Bool) :
    Option (Grid α) :=
  if convolve_pre_check input weights mask slow then
    some (convolve input weights mask slow)
  else none

/-- Model of `radius = int(truncate * sigma + 0.5)` of `gaussian_kernel` (the argument
is nonnegative for the intended parameters, so `int` is `floor`). -/
noncomputable def gaussian_radius (sigma truncate : ℝ) : ℤ :=
  ⌊truncate * sigma + 1 / 2⌋

/-- Side length `2 * radius + 1` of the Gaussian kernel. -/
noncomputable def gaussian_side (sigma truncate : ℝ) : ℕ :=
  (2 * gaussian_radius sigma truncate + 1).toNat

/-- The unnormalized Gaussian weight `2 * exp(-0.5 * (x^2 + y^2) / sigma^2)`
at array index `(a, b)`, whose offsets from the centre are
`x = a - radius` and `y = b - radius`. -/
noncomputable def gaussian_unnorm (sigma truncate : ℝ) (a b : ℕ) : ℝ :=
  2 * Real.exp (-(1 / 2) *
    ((((a : ℤ) - gaussian_radius sigma truncate) ^ 2 +
      ((b : ℤ) - gaussian_radius sigma truncate) ^ 2 : ℤ) : ℝ) / sigma ^ 2)

/-- Model of `np.sum(k)` over the unnormalized Gaussian kernel. -/
noncomputable def gaussian_total (sigma truncate : ℝ) : ℝ :=
  ∑ a ∈ Finset.range (gaussian_side sigma truncate),
    ∑ b ∈ Finset.range (gaussian_side sigma truncate),
      gaussian_unnorm sigma truncate a b

/-- Model of `gaussian_kernel`: the truncated Gaussian, divided by its total. -/
noncomputable def gaussian_kernel (sigma : ℝ) (truncate : ℝ := 4) : Grid ℝ :=
  ⟨gaussian_side sigma truncate, gaussian_side sigma truncate,
   fun a b => gaussian_unnorm sigma truncate a b / gaussian_total sigma truncate⟩

/-- The smoothing-method selector of `create_contour`. -/
inductive SmoothingMethod where
  | none_smoothing
  | numpy_smoothing
  | scipy_smoothing

/-- The smoothing step of `create_contour`: Gaussian smoothing convolves the
raw array with a kernel built from the sigma (windowed mode, no mask); any
other selector passes the array through unchanged. -/
noncomputable def smoothed_array (shakemap_array : Grid ℝ)
    (smoothing_method : SmoothingMethod) (smoothing_sigma : ℝ) : Grid ℝ :=
  match smoothing_method with
  | SmoothingMethod.numpy_smoothing =>
    convolve shakemap_array (gaussian_kernel smoothing_sigma) none false
  | _ => shakemap_array

/-- A concrete 3x3 grid of all ones. -/
def G1 : Grid ℚ := ⟨3, 3, fun _ _ => 1⟩

/-- A concrete 2x2 grid with four distinct values. -/
def G2 : Grid ℚ := ⟨2, 2, fun a b => 2 * a + b⟩

/-- A concrete 1x3 grid of all ones. -/
def G3 : Grid ℚ := ⟨1, 3, fun _ _ => 1⟩

/-- A concrete normalized 1x1 kernel. -/
def K1 : Grid ℚ := ⟨1, 1, fun _ _ => 1⟩

/-- A concrete normalized 1x3 kernel with a zero weight. -/
def W0 : Grid ℚ :=
  ⟨1, 3, fun k l =>
    match k, l with
    | 0, 0 => 0
    | 0, 1 => 1/2
    | 0, 2 => 1/2
    | _, _ => 0⟩

/-- A concrete 3x3 mask that masks exactly the cell `(0, 1)`. -/
def M0 : Grid Bool := ⟨3, 3, fun k l => decide (k = 0 ∧ l = 1)⟩

/-- A concrete 1x3 mask that masks exactly the cell `(0, 2)`. -/
def M1 : Grid Bool := ⟨1, 3, fun k l => decide (k = 0 ∧ l = 2)⟩

/-- A concrete 3x3 mask with no masked cell. -/
def Mfalse : Grid Bool := ⟨3, 3, fun _ _ => false⟩

/-- A concrete 4x4 kernel, too large for a 3x3 grid. -/
def Wbig : Grid ℚ := ⟨4, 4, fun _ _ => 1/16⟩

/-- The central tile of the reflected tiling is the input, unchanged. -/
lemma tile_center {α : Type*} (g : Grid α) (a b : ℕ)
    (ha : a < g.rows) (hb : b < g.cols) :
    (tile_and_reflect g).data (g.rows + a) (g.cols + b) = g.data a b := by
  show tile2 g (g.rows + a) (g.cols + b) = g.data a b
  unfold tile2 tile1 tile0
  have h1 : ¬ g.rows + a < g.rows := by omega
  have h2 : ¬ 2 * g.rows ≤ g.rows + a := by omega
  have h3 : ¬ g.cols + b < g.cols := by omega
  have h4 : ¬ 2 * g.cols ≤ g.cols + b := by omega
  simp only [h1, h2, h3, h4, if_false]
  rw [Nat.add_mod_left, Nat.add_mod_left, Nat.mod_eq_of_lt ha, Nat.mod_eq_of_lt hb]

/-- Top seam: row 0 of the input appears directly above the central tile. -/
lemma tile_seam_top {α : Type*} (g : Grid α) (b : ℕ)
    (hr : 0 < g.rows) (hb : b < g.cols) :
    (tile_and_reflect g).data (g.rows - 1) (g.cols + b) = g.data 0 b := by
  show tile2 g (g.rows - 1) (g.cols + b) = g.data 0 b
  unfold tile2 tile1 tile0
  have h1 : g.rows - 1 < g.rows := by omega
  have h2 : ¬ g.cols + b < g.cols := by omega
  have h3 : ¬ 2 * g.cols ≤ g.cols + b := by omega
  have h4 : g.rows - 1 - (g.rows - 1) = 0 := by omega
  simp only [h1, if_true, h2, h3, if_false, h4]
  rw [Nat.add_mod_left, Nat.zero_mod, Nat.mod_eq_of_lt hb]

/-- Right seam: the last column of the input appears directly right of the
central tile. -/
lemma tile_seam_right {α : Type*} (g : Grid α) (a : ℕ)
    (hc : 0 < g.cols) (ha : a < g.rows) :
    (tile_and_reflect g).data (g.rows + a) (2 * g.cols) = g.data a (g.cols - 1) := by
  show tile2 g (g.rows + a) (2 * g.cols) = g.data a (g.cols - 1)
  unfold tile2 tile1 tile0
  have h1 : ¬ g.rows + a < g.rows := by omega
  have h2 : ¬ 2 * g.rows ≤ g.rows + a := by omega
  have h3 : ¬ 2 * g.cols < g.cols := by omega
  have h4 : 2 * g.cols ≤ 2 * g.cols := Nat.le_refl _
  simp only [h1, h2, h3, h4, if_false, if_true]
  have h5 : 5 * g.cols - 1 - 2 * g.cols = g.cols - 1 + 2 * g.cols := by omega
  rw [h5, Nat.add_mul_mod_self_right, Nat.add_mod_left,
    Nat.mod_eq_of_lt ha, Nat.mod_eq_of_lt (by omega)]

/-- Bottom seam: the last row of the input appears directly below the central
tile. -/
lemma tile_seam_bottom {α : Type*} (g : Grid α) (b : ℕ)
    (hr : 0 < g.rows) (hb : b < g.cols) :
    (tile_and_reflect g).data (2 * g.rows) (g.cols + b) = g.data (g.rows - 1) b := by
  show tile2 g (2 * g.rows) (g.cols + b) = g.data (g.rows - 1) b
  unfold tile2 tile1 tile0
  have h1 : ¬ 2 * g.rows < g.rows := by omega
  have h2 : 2 * g.rows ≤ 2 * g.rows := Nat.le_refl _
  have h3 : ¬ g.cols + b < g.cols := by omega
  have h4 : ¬ 2 * g.cols ≤ g.cols + b := by omega
  simp only [h1, h2, h3, h4, if_false, if_true]
  have h5 : 5 * g.rows - 1 - 2 * g.rows = g.rows - 1 + 2 * g.rows := by omega
  rw [h5, Nat.add_mul_mod_self_right, Nat.add_mod_left,
    Nat.mod_eq_of_lt hb, Nat.mod_eq_of_lt (by omega)]

/-- Left seam: column 0 of the input appears directly left of the central
tile. -/
lemma tile_seam_left {α : Type*} (g : Grid α) (a : ℕ)
    (hc : 0 < g.cols) (ha : a < g.rows) :
    (tile_and_reflect g).data (g.rows + a) (g.cols - 1) = g.data a 0 := by
  show tile2 g (g.rows + a) (g.cols - 1) = g.data a 0
  unfold tile2 tile1 tile0
  have h1 : ¬ g.rows + a < g.rows := by omega
  have h2 : ¬ 2 * g.rows ≤ g.rows + a := by omega
  have h3 : g.cols - 1 < g.cols := by omega
  have h4 : g.cols - 1 - (g.cols - 1) = 0 := by omega
  simp only [h1, h2, h3, h4, if_false, if_true]
  rw [Nat.add_mod_left, Nat.zero_mod, Nat.mod_eq_of_lt ha]

/-- Tiling a constant grid gives a constant function everywhere. -/
lemma tile_const {α : Type*} (g : Grid α) (v : α)
    (hr : 0 < g.rows) (hc : 0 < g.cols)
    (h : ∀ a b, a < g.rows → b < g.cols → g.data a b = v) :
    ∀ p q, (tile_and_reflect g).data p q = v := by
  intro p q
  show tile2 g p q = v
  unfold tile2 tile1 tile0
  split_ifs <;> exact h _ _ (Nat.mod_lt _ hr) (Nat.mod_lt _ hc)

/-- The working kernel preserves the total kernel mass whenever every kernel
weight is nonzero and at least one window position is unmasked: the zeroed
mass `clobber_total` comes back as `remaining_num` copies of the
correction. -/
lemma working_kernel_total_eq {α : Type*} [LinearOrderedField α] [DecidableEq α]
    (w : Grid α) (om : ℕ → ℕ → Bool)
    (hnz : ∀ k l, k < w.rows → l < w.cols → w.data k l ≠ 0)
    (hrem : 0 < remaining_num w om) :
    working_kernel_total w om = gridSum w := by
  classical
  unfold working_kernel_total gridSum
  rw [← Finset.sum_product', ← Finset.sum_product']
  set s := Finset.range w.rows ×ˢ Finset.range w.cols with hs
  rw [← Finset.sum_filter_add_sum_filter_not s (fun p => om p.1 p.2 = true)]
  have hmasked : ∑ p ∈ s.filter (fun p => om p.1 p.2 = true),
      working_weights w om p.1 p.2 = 0 := by
    refine Finset.sum_eq_zero fun p hp => ?_
    have hom : om p.1 p.2 = true := (Finset.mem_filter.mp hp).2
    simp [working_weights, hom]
  rw [hmasked, zero_add]
  have hunm : ∑ p ∈ s.filter (fun p => ¬ om p.1 p.2 = true),
      working_weights w om p.1 p.2
      = ∑ p ∈ s.filter (fun p => ¬ om p.1 p.2 = true),
          (w.data p.1 p.2 + correction w om) := by
    refine Finset.sum_congr rfl fun p hp => ?_
    obtain ⟨hps, hom⟩ := Finset.mem_filter.mp hp
    obtain ⟨h1, h2⟩ := Finset.mem_product.mp hps
    have hnz' := hnz p.1 p.2 (Finset.mem_range.mp h1) (Finset.mem_range.mp h2)
    have hom' : om p.1 p.2 = false := by
      cases h : om p.1 p.2
      · rfl
      · exact absurd h hom
    simp [working_weights, hom', hnz']
  rw [hunm, Finset.sum_add_distrib, Finset.sum_const, nsmul_eq_mul]
  have hcard : (s.filter (fun p => ¬ om p.1 p.2 = true)).card = remaining_num w om := by
    unfold remaining_num
    rw [← hs]
    congr 1
    exact Finset.filter_congr fun p _ => by simp [Bool.not_eq_true]
  have hclob : ∑ p ∈ s.filter (fun p => om p.1 p.2 = true), w.data p.1 p.2
      = clobber_total w om := by
    unfold clobber_total
    rw [← Finset.sum_product', ← hs, Finset.sum_filter]
  have hsplit : ∑ p ∈ s.filter (fun p => ¬ om p.1 p.2 = true), w.data p.1 p.2
      = (∑ p ∈ s, w.data p.1 p.2) - clobber_total w om := by
    rw [← hclob, eq_sub_iff_add_eq, add_comm]
    exact Finset.sum_filter_add_sum_filter_not s _ _
  rw [hsplit, hcard]
  have hne : ((remaining_num w om : α)) ≠ 0 := by
    exact_mod_cast Nat.pos_iff_ne_zero.mp hrem
  unfold correction
  field_simp

/-- The centre position `(hwr, hwc)` of the window at an unmasked tiled
position `(i, j)` is unmasked, so `remaining_num` is positive. -/
lemma remaining_num_pos {α : Type*} (w : Grid α) (tm : Grid Bool) (i j : ℕ)
    (h0r : 0 < w.rows) (h0c : 0 < w.cols) (h : tm.data i j = false) :
    0 < remaining_num w (window_mask tm (w.rows / 2) (w.cols / 2) i j) := by
  refine Finset.card_pos.mpr ⟨(w.rows / 2, w.cols / 2), ?_⟩
  rw [Finset.mem_filter, Finset.mem_product]
  refine ⟨⟨Finset.mem_range.mpr (Nat.div_lt_self h0r one_lt_two),
    Finset.mem_range.mpr (Nat.div_lt_self h0c one_lt_two)⟩, ?_⟩
  show window_mask tm (w.rows / 2) (w.cols / 2) i j (w.rows / 2) (w.cols / 2) = false
  unfold window_mask
  rw [Nat.add_sub_cancel, Nat.add_sub_cancel]
  exact h

/-- With no masked window position the working kernel is the kernel itself:
nothing is clobbered and the correction is zero. -/
lemma working_weights_of_unmasked {α : Type*} [LinearOrderedField α] [DecidableEq α]
    (w : Grid α) (om : ℕ → ℕ → Bool) (hom : ∀ k l, om k l = false) :
    ∀ k l, working_weights w om k l = w.data k l := by
  intro k l
  have hclob : clobber_total w om = 0 := by
    refine Finset.sum_eq_zero fun k' _ => Finset.sum_eq_zero fun l' _ => ?_
    simp [hom]
  have hcorr : correction w om = 0 := by
    unfold correction
    rw [hclob, zero_div]
  unfold working_weights
  rw [hom, hcorr]
  by_cases h : w.data k l = 0 <;> simp [h]

/-- The slow sum and the windowed sum with the uncorrected kernel are the
same weighted sum, with the factors swapped. -/
lemma slowSum_eq_windowSum {α : Type*} [Field α] (input weights : Grid α) (io jo : ℕ) :
    slowSum input weights io jo = windowSum input weights weights.data io jo := by
  unfold slowSum windowSum
  exact Finset.sum_congr rfl fun k _ => Finset.sum_congr rfl fun l _ => mul_comm _ _

/-- A windowed sum over a (tiled) constant field is the kernel total times the
constant. -/
lemma windowSum_const {α : Type*} [Field α] (input weights : Grid α)
    (tw : ℕ → ℕ → α) (v : α) (io jo : ℕ)
    (hconst : ∀ p q, (tile_and_reflect input).data p q = v) :
    windowSum input weights tw io jo
      = (∑ k ∈ Finset.range weights.rows, ∑ l ∈ Finset.range weights.cols, tw k l) * v := by
  unfold windowSum
  rw [Finset.sum_mul]
  refine Finset.sum_congr rfl fun k _ => ?_
  rw [Finset.sum_mul]
  exact Finset.sum_congr rfl fun l _ => by rw [hconst]

/-- Claim C3: for every 2-D array the reflected tiling has shape
`(3*rows, 3*cols)`, its central tile equals the input exactly, and the four
seam adjacencies hold exactly: row 0 of the input equals the tiled row
directly above the central tile, and correspondingly for the bottom row and
the left and right columns. -/
theorem tile_and_reflect_spec {α : Type*} (g : Grid α)
    (h0r : 0 < g.rows) (h0c : 0 < g.cols) :
    (tile_and_reflect g).rows = 3 * g.rows ∧
    (tile_and_reflect g).cols = 3 * g.cols ∧
    (∀ a b, a < g.rows → b < g.cols →
      (tile_and_reflect g).data (g.rows + a) (g.cols + b) = g.data a b) ∧
    (∀ b, b < g.cols →
      (tile_and_reflect g).data (g.rows - 1) (g.cols + b) = g.data 0 b) ∧
    (∀ a, a < g.rows →
      (tile_and_reflect g).data (g.rows + a) (2 * g.cols) = g.data a (g.cols - 1)) ∧
    (∀ b, b < g.cols →
      (tile_and_reflect g).data (2 * g.rows) (g.cols + b) = g.data (g.rows - 1) b) ∧
    (∀ a, a < g.rows →
      (tile_and_reflect g).data (g.rows + a) (g.cols - 1) = g.data a 0) :=
  ⟨rfl, rfl,
   fun a b ha hb => tile_center g a b ha hb,
   fun b hb => tile_seam_top g b h0r hb,
   fun a ha => tile_seam_right g a h0c ha,
   fun b hb => tile_seam_bottom g b h0r hb,
   fun a ha => tile_seam_left g a h0c ha⟩

/-- Witness for C3 at the concrete 2x2 grid `G2`. -/
theorem tile_and_reflect_spec_witness :
    (tile_and_reflect G2).rows = 6 ∧
    (tile_and_reflect G2).data 3 3 = G2.data 1 1 ∧
    (tile_and_reflect G2).data 1 2 = G2.data 0 0 :=
  ⟨(tile_and_reflect_spec G2 (by decide) (by decide)).1,
   (tile_and_reflect_spec G2 (by decide) (by decide)).2.2.1 1 1 (by decide) (by decide),
   (tile_and_reflect_spec G2 (by decide) (by decide)).2.2.2.1 0 (by decide)⟩

/-- Claim C2: on unmasked input, the reference (slow) mode and the windowed
mode of `convolve` produce the same output grid, for every grid and kernel
satisfying the size precondition (odd kernel dimensions, each below the grid
dimension plus one); in the exact-arithmetic model the outputs are equal
cell for cell, hence certainly within the 1e-9 tolerance. -/
theorem convolve_modes_agree {α : Type*} [LinearOrderedField α] [DecidableEq α]
    (input weights : Grid α)
    (hodd_r : weights.rows % 2 = 1) (hodd_c : weights.cols % 2 = 1)
    (hsize_r : weights.rows < input.rows + 1) (hsize_c : weights.cols < input.cols + 1) :
    convolve input weights none true = convolve input weights none false := by
  unfold convolve
  simp only [Grid.mk.injEq, true_and]
  funext io jo
  by_cases h : io < input.rows ∧ jo < input.cols
  · simp only [h, if_true]
    unfold convolve_cell
    simp only [if_true, if_false, Bool.false_eq_true]
    exact slowSum_eq_windowSum input weights io jo
  · simp only [h, if_false]

/-- Witness for C2 at the all-ones 3x3 grid and the 1x1 unit kernel. -/
theorem convolve_modes_agree_witness :
    convolve G1 K1 none true = convolve G1 K1 none false :=
  convolve_modes_agree G1 K1 (by decide) (by decide) (by decide) (by decide)

/-- Claim C4: in a masked convolution, a cell whose mask entry is true is
copied from the input to the output unchanged, exactly. -/
theorem masked_cells_pass_through {α : Type*} [LinearOrderedField α] [DecidableEq α]
    (input weights : Grid α) (m : Grid Bool) (io jo : ℕ)
    (hmr : m.rows = input.rows) (hmc : m.cols = input.cols)
    (hio : io < input.rows) (hjo : jo < input.cols)
    (hm : m.data io jo = true) :
    (convolve input weights (some m) false).data io jo = input.data io jo := by
  have hc : (tile_and_reflect m).data (input.rows + io) (input.cols + jo) = true := by
    rw [← hmr, ← hmc, tile_center m io jo (by omega) (by omega)]
    exact hm
  unfold convolve convolve_cell
  simp [hio, hjo, hc]

/-- Witness for C4 at the all-ones 3x3 grid, masked at cell `(0, 1)`. -/
theorem masked_cells_pass_through_witness :
    (convolve G1 K1 (some M0) false).data 0 1 = G1.data 0 1 :=
  masked_cells_pass_through G1 K1 M0 0 1 rfl rfl (by decide) (by decide) (by decide)

/-- Claim C1 (amended): in a masked windowed convolution whose normalized
kernel has only nonzero weights, the working kernel built for every unmasked
output cell sums to exactly 1, so the internal consistency assertion
(tolerance 1e-15) passes.  (As originally stated the claim fails when the
kernel holds zero weights, because the correction is added only to nonzero
remaining weights while the clobbered mass is divided by the count of all
remaining positions.) -/
theorem working_kernel_sums_to_one {α : Type*} [LinearOrderedField α] [DecidableEq α]
    (input weights : Grid α) (m : Grid Bool) (io jo : ℕ)
    (hmr : m.rows = input.rows) (hmc : m.cols = input.cols)
    (hio : io < input.rows) (hjo : jo < input.cols)
    (h0r : 0 < weights.rows) (h0c : 0 < weights.cols)
    (hnorm : gridSum weights = 1)
    (hnz : ∀ k l, k < weights.rows → l < weights.cols → weights.data k l ≠ 0)
    (hm : m.data io jo = false) :
    working_kernel_total weights
        (window_mask (tile_and_reflect m) (weights.rows / 2) (weights.cols / 2)
          (input.rows + io) (input.cols + jo)) = 1 ∧
    |working_kernel_total weights
        (window_mask (tile_and_reflect m) (weights.rows / 2) (weights.cols / 2)
          (input.rows + io) (input.cols + jo)) - 1| < 1 / 1000000000000000 := by
  have hcentre : (tile_and_reflect m).data (input.rows + io) (input.cols + jo) = false := by
    rw [← hmr, ← hmc, tile_center m io jo (by omega) (by omega)]
    exact hm
  have h1 : working_kernel_total weights
      (window_mask (tile_and_reflect m) (weights.rows / 2) (weights.cols / 2)
        (input.rows + io) (input.cols + jo)) = 1 := by
    rw [working_kernel_total_eq weights _ hnz
      (remaining_num_pos weights (tile_and_reflect m) _ _ h0r h0c hcentre)]
    exact hnorm
  refine ⟨h1, ?_⟩
  rw [h1, sub_self, abs_zero]
  norm_num

/-- Witness for C1 (amended) at the all-ones 3x3 grid, 1x1 unit kernel and
the mask `M0`, at the unmasked cell `(1, 1)`. -/
theorem working_kernel_sums_to_one_witness :
    working_kernel_total K1
        (window_mask (tile_and_reflect M0) (K1.rows / 2) (K1.cols / 2)
          (G1.rows + 1) (G1.cols + 1)) = 1 ∧
    |working_kernel_total K1
        (window_mask (tile_and_reflect M0) (K1.rows / 2) (K1.cols / 2)
          (G1.rows + 1) (G1.cols + 1)) - 1| < 1 / 1000000000000000 :=
  working_kernel_sums_to_one G1 K1 M0 1 1 rfl rfl (by decide) (by decide)
    (by decide) (by decide) (by simp [gridSum, K1])
    (fun k l _ _ => one_ne_zero) (by decide)

/-- Counterexample to C1 as stated: the normalized 1x3 kernel `W0` holds a
zero weight; convolving the 1x3 grid with mask `M1` reaches the unmasked
output cell `(0, 1)` (tiled centre `(1, 4)`), and the working kernel built
there sums to 3/4, so the internal assertion on `|sum - 1|` fails. -/
theorem working_kernel_sum_counterexample :
    gridSum W0 = 1 ∧ M1.data 0 1 = false ∧
    working_kernel_total W0
        (window_mask (tile_and_reflect M1) (W0.rows / 2) (W0.cols / 2)
          (G3.rows + 0) (G3.cols + 1)) = 3 / 4 ∧
    ¬ |working_kernel_total W0
        (window_mask (tile_and_reflect M1) (W0.rows / 2) (W0.cols / 2)
          (G3.rows + 0) (G3.cols + 1)) - 1| < 1 / 1000000000000 := by
  have hval : working_kernel_total W0
      (window_mask (tile_and_reflect M1) (W0.rows / 2) (W0.cols / 2)
        (G3.rows + 0) (G3.cols + 1)) = 3 / 4 := by
    unfold working_kernel_total
    simp only [working_weights, correction]
    rw [show remaining_num W0 (window_mask (tile_and_reflect M1) (W0.rows / 2)
      (W0.cols / 2) (G3.rows + 0) (G3.cols + 1)) = 2 from by decide]
    norm_num [clobber_total, window_mask, tile_and_reflect, tile2, tile1, tile0,
      W0, M1, G3, Finset.sum_range_succ]
  refine ⟨by norm_num [gridSum, W0, Finset.sum_range_succ], by decide, hval, ?_⟩
  rw [hval, show (3:ℚ)/4 - 1 = -(1/4) by norm_num, abs_neg,
    abs_of_pos (by norm_num : (0:ℚ) < 1/4)]
  norm_num

/-- Claim C7 (amended): convolving a grid whose cells all hold the same value
`v` with a normalized kernel yields `v` at every output cell — exactly, in
the exact-arithmetic model — in either unmasked mode, and in the masked
windowed mode provided the kernel weights are all nonzero.  (As originally
stated, for an arbitrary normalized kernel together with a mask, the claim
fails: a kernel holding a zero weight loses redistributed mass.) -/
theorem convolve_constant_field {α : Type*} [LinearOrderedField α] [DecidableEq α]
    (input weights : Grid α) (mask : Option (Grid Bool)) (slow : Bool) (v : α)
    (h0r : 0 < input.rows) (h0c : 0 < input.cols)
    (hv : ∀ a b, a < input.rows → b < input.cols → input.data a b = v)
    (hnorm : gridSum weights = 1)
    (hmask : ∀ m, mask = some m → slow = false ∧ m.rows = input.rows ∧
      m.cols = input.cols ∧ 0 < weights.rows ∧ 0 < weights.cols ∧
      ∀ k l, k < weights.rows → l < weights.cols → weights.data k l ≠ 0)
    (io jo : ℕ) (hio : io < input.rows) (hjo : jo < input.cols) :
    (convolve input weights mask slow).data io jo = v := by
  have hconst : ∀ p q, (tile_and_reflect input).data p q = v :=
    tile_const input v h0r h0c hv
  have hwindow : windowSum input weights weights.data io jo = v := by
    rw [windowSum_const input weights weights.data v io jo hconst]
    show gridSum weights * v = v
    rw [hnorm, one_mul]
  unfold convolve
  simp only [hio, hjo, and_self, if_true]
  unfold convolve_cell
  cases mask with
  | none =>
    cases slow with
    | false =>
      simpa using hwindow
    | true =>
      simpa [slowSum_eq_windowSum] using hwindow
  | some m =>
    obtain ⟨hslow, hmr, hmc, hwr, hwc, hnz⟩ := hmask m rfl
    subst hslow
    by_cases hskip : (tile_and_reflect m).data (input.rows + io) (input.cols + jo) = true
    · simp only [hskip, if_true]
      exact hv io jo hio hjo
    · have hskip' : (tile_and_reflect m).data (input.rows + io) (input.cols + jo) = false :=
        by cases h : (tile_and_reflect m).data (input.rows + io) (input.cols + jo)
           · rfl
           · exact absurd h hskip
      simp only [hskip', Bool.false_eq_true, if_false]
      rw [windowSum_const input weights _ v io jo hconst]
      have hsum : working_kernel_total weights
          (window_mask (tile_and_reflect m) (weights.rows / 2) (weights.cols / 2)
            (input.rows + io) (input.cols + jo)) = 1 := by
        rw [working_kernel_total_eq weights _ hnz
          (remaining_num_pos weights (tile_and_reflect m) _ _ hwr hwc hskip')]
        exact hnorm
      show working_kernel_total weights _ * v = v
      rw [hsum, one_mul]

/-- Witness for C7 (amended) at the all-ones 3x3 grid, the 1x1 unit kernel
and the mask `M0`. -/
theorem convolve_constant_field_witness :
    (convolve G1 K1 (some M0) false).data 0 0 = 1 :=
  convolve_constant_field G1 K1 (some M0) false 1 (by decide) (by decide)
    (fun _ _ _ _ => rfl) (by simp [gridSum, K1])
    (fun m hm => by
      injection hm with h
      subst h
      exact ⟨rfl, rfl, rfl, by decide, by decide, fun _ _ _ _ => one_ne_zero⟩)
    0 0 (by decide) (by decide)

/-- Counterexample to C7 as stated: on the all-ones 1x3 grid, the normalized
kernel `W0` (which holds a zero weight) with mask `M1` produces 3/4 instead
of 1 at the unmasked cell `(0, 1)`, far outside any floating tolerance. -/
theorem convolve_constant_field_counterexample :
    gridSum W0 = 1 ∧
    (convolve G3 W0 (some M1) false).data 0 1 = 3 / 4 ∧
    ¬ |(convolve G3 W0 (some M1) false).data 0 1 - 1| < 1 / 1000000000 := by
  have hval : (convolve G3 W0 (some M1) false).data 0 1 = 3 / 4 := by
    simp only [convolve, convolve_cell, windowSum, working_weights, correction]
    rw [show remaining_num W0 (window_mask (tile_and_reflect M1) (W0.rows / 2)
      (W0.cols / 2) (G3.rows + 0) (G3.cols + 1)) = 2 from by decide]
    norm_num [clobber_total, window_mask, tile_and_reflect, tile2, tile1, tile0,
      W0, M1, G3, Finset.sum_range_succ]
  refine ⟨by norm_num [gridSum, W0, Finset.sum_range_succ], hval, ?_⟩
  rw [hval, show (3:ℚ)/4 - 1 = -(1/4) by norm_num, abs_neg,
    abs_of_pos (by norm_num : (0:ℚ) < 1/4)]
  norm_num

/-- Claim C10: an all-false mask is equivalent to no mask: in windowed mode,
with no window cell masked, the correction is 0 and the working kernel is the
original kernel, so the two calls produce exactly the same output grid. -/
theorem all_false_mask_equals_no_mask {α : Type*} [LinearOrderedField α] [DecidableEq α]
    (input weights : Grid α) (m : Grid Bool)
    (h0r : 0 < input.rows) (h0c : 0 < input.cols)
    (hmr : m.rows = input.rows) (hmc : m.cols = input.cols)
    (hodd_r : weights.rows % 2 = 1) (hodd_c : weights.cols % 2 = 1)
    (hsize_r : weights.rows < input.rows + 1) (hsize_c : weights.cols < input.cols + 1)
    (hfalse : ∀ a b, a < m.rows → b < m.cols → m.data a b = false) :
    convolve input weights (some m) false = convolve input weights none false := by
  have htm : ∀ p q, (tile_and_reflect m).data p q = false :=
    tile_const m false (by omega) (by omega) hfalse
  unfold convolve
  simp only [Grid.mk.injEq, true_and]
  funext io jo
  by_cases h : io < input.rows ∧ jo < input.cols
  · simp only [h, if_true]
    unfold convolve_cell
    simp only [htm, Bool.false_eq_true, if_false]
    unfold windowSum
    refine Finset.sum_congr rfl fun k _ => Finset.sum_congr rfl fun l _ => ?_
    rw [working_weights_of_unmasked weights _
      (fun k' l' => by unfold window_mask; exact htm _ _) k l]
  · simp only [h, if_false]

/-- Witness for C10 at the all-ones 3x3 grid, 1x1 unit kernel and the
all-false 3x3 mask. -/
theorem all_false_mask_equals_no_mask_witness :
    convolve G1 K1 (some Mfalse) false = convolve G1 K1 none false :=
  all_false_mask_equals_no_mask G1 K1 Mfalse (by decide) (by decide) rfl rfl
    (by decide) (by decide) (by decide) (by decide) (fun _ _ _ _ => rfl)

/-- Claim C8: `convolve` fails immediately, producing no output grid, whenever
a precondition is violated: an oversized kernel dimension, a mask supplied
together with the slow reference mode, or a mask whose shape differs from the
grid's. -/
theorem convolve_checked_rejects_invalid {α : Type*} [LinearOrderedField α] [DecidableEq α]
    (input weights : Grid α) (mask : Option (Grid Bool)) (slow : Bool)
    (h : ¬ weights.rows < input.rows + 1 ∨ ¬ weights.cols < input.cols + 1 ∨
      (∃ m, mask = some m ∧ slow = true) ∨
      (∃ m, mask = some m ∧ (m.rows ≠ input.rows ∨ m.cols ≠ input.cols))) :
    convolve_checked input weights mask slow = none := by
  have hfail : convolve_pre_check input weights mask slow = false := by
    unfold convolve_pre_check
    rcases h with h | h | ⟨m, hm, hs⟩ | ⟨m, hm, hd⟩
    · simp [h]
    · simp [h]
    · subst hm
      subst hs
      simp
    · subst hm
      rcases hd with hd | hd <;> simp [hd]
  unfold convolve_checked
  rw [hfail]
  simp

/-- Witness for C8: a 4x4 kernel with a 3x3 grid is rejected. -/
theorem convolve_checked_rejects_invalid_witness :
    convolve_checked G1 Wbig none false = none :=
  convolve_checked_rejects_invalid G1 Wbig none false (Or.inl (by decide))

/-- The radius is nonnegative for a positive sigma and nonnegative truncate
factor. -/
lemma gaussian_radius_nonneg (sigma truncate : ℝ) (hσ : 0 < sigma) (ht : 0 ≤ truncate) :
    0 ≤ gaussian_radius sigma truncate := by
  have := mul_nonneg ht hσ.le
  exact Int.floor_nonneg.mpr (by linarith)

/-- The kernel side length is positive. -/
lemma gaussian_side_pos (sigma truncate : ℝ) (hσ : 0 < sigma) (ht : 0 ≤ truncate) :
    0 < gaussian_side sigma truncate := by
  have h := gaussian_radius_nonneg sigma truncate hσ ht
  unfold gaussian_side
  omega

/-- Every unnormalized Gaussian weight is positive. -/
lemma gaussian_unnorm_pos (sigma truncate : ℝ) (a b : ℕ) :
    0 < gaussian_unnorm sigma truncate a b := by
  unfold gaussian_unnorm
  positivity

/-- The total of the unnormalized kernel is positive. -/
lemma gaussian_total_pos (sigma truncate : ℝ) (hσ : 0 < sigma) (ht : 0 ≤ truncate) :
    0 < gaussian_total sigma truncate := by
  have hn : (Finset.range (gaussian_side sigma truncate)).Nonempty :=
    Finset.nonempty_range_iff.mpr (Nat.pos_iff_ne_zero.mp (gaussian_side_pos sigma truncate hσ ht))
  exact Finset.sum_pos
    (fun a _ => Finset.sum_pos (fun b _ => gaussian_unnorm_pos sigma truncate a b) hn) hn

/-- Claim C5: the Gaussian kernel is normalized: for every positive spread
(and nonnegative truncate factor) the weights sum to exactly 1 in exact
arithmetic, hence within the 1e-12 tolerance. -/
theorem gaussian_kernel_normalized (sigma truncate : ℝ)
    (hσ : 0 < sigma) (ht : 0 ≤ truncate) :
    gridSum (gaussian_kernel sigma truncate) = 1 ∧
    |gridSum (gaussian_kernel sigma truncate) - 1| < 1 / 1000000000000 := by
  have h1 : gridSum (gaussian_kernel sigma truncate) = 1 := by
    show (∑ a ∈ Finset.range (gaussian_side sigma truncate),
      ∑ b ∈ Finset.range (gaussian_side sigma truncate),
        gaussian_unnorm sigma truncate a b / gaussian_total sigma truncate) = 1
    rw [Finset.sum_congr rfl fun a _ =>
      (Finset.sum_div (Finset.range (gaussian_side sigma truncate))
        (gaussian_unnorm sigma truncate a) (gaussian_total sigma truncate)).symm]
    rw [← Finset.sum_div]
    exact div_self (gaussian_total_pos sigma truncate hσ ht).ne'
  refine ⟨h1, ?_⟩
  rw [h1, sub_self, abs_zero]
  norm_num

/-- Witness for C5 at sigma 1, truncate 4. -/
theorem gaussian_kernel_normalized_witness :
    gridSum (gaussian_kernel 1 4) = 1 ∧
    |gridSum (gaussian_kernel 1 4) - 1| < 1 / 1000000000000 :=
  gaussian_kernel_normalized 1 4 zero_lt_one zero_le_four

/-- Claim C6: the Gaussian kernel is square with side `2*radius + 1` where
`radius = floor(truncate * sigma + 0.5)`, and the weight at integer offset
`(x, y)` from the centre, for offsets within `[-radius, radius]`, is
proportional (with a positive constant, namely 2 divided by the normalizing
total) to `exp(-0.5 * (x^2 + y^2) / sigma^2)`. -/
theorem gaussian_kernel_shape_weights (sigma truncate : ℝ)
    (hσ : 0 < sigma) (ht : 0 ≤ truncate) :
    ((gaussian_kernel sigma truncate).rows : ℤ) = 2 * ⌊truncate * sigma + 1 / 2⌋ + 1 ∧
    ((gaussian_kernel sigma truncate).cols : ℤ) = 2 * ⌊truncate * sigma + 1 / 2⌋ + 1 ∧
    ∃ c : ℝ, 0 < c ∧ ∀ x y : ℤ,
      -gaussian_radius sigma truncate ≤ x → x ≤ gaussian_radius sigma truncate →
      -gaussian_radius sigma truncate ≤ y → y ≤ gaussian_radius sigma truncate →
      (gaussian_kernel sigma truncate).data (x + gaussian_radius sigma truncate).toNat
          (y + gaussian_radius sigma truncate).toNat
        = c * Real.exp (-(1 / 2) * ((x : ℝ) ^ 2 + (y : ℝ) ^ 2) / sigma ^ 2) := by
  have hrad := gaussian_radius_nonneg sigma truncate hσ ht
  have hshape : ((gaussian_kernel sigma truncate).rows : ℤ)
      = 2 * ⌊truncate * sigma + 1 / 2⌋ + 1 := by
    show ((gaussian_side sigma truncate : ℕ) : ℤ) = _
    unfold gaussian_side
    rw [Int.toNat_of_nonneg (by omega)]
    rfl
  refine ⟨hshape, hshape, ⟨2 / gaussian_total sigma truncate,
    div_pos two_pos (gaussian_total_pos sigma truncate hσ ht), ?_⟩⟩
  intro x y hx1 hx2 hy1 hy2
  show gaussian_unnorm sigma truncate (x + gaussian_radius sigma truncate).toNat
      (y + gaussian_radius sigma truncate).toNat / gaussian_total sigma truncate = _
  unfold gaussian_unnorm
  rw [Int.toNat_of_nonneg (by omega), Int.toNat_of_nonneg (by omega),
    add_sub_cancel_right, add_sub_cancel_right]
  push_cast
  ring

/-- Witness for C6 at sigma 1, truncate 4. -/
theorem gaussian_kernel_shape_weights_witness :
    ((gaussian_kernel 1 4).rows : ℤ) = 2 * ⌊(4 : ℝ) * 1 + 1 / 2⌋ + 1 ∧
    ((gaussian_kernel 1 4).cols : ℤ) = 2 * ⌊(4 : ℝ) * 1 + 1 / 2⌋ + 1 ∧
    ∃ c : ℝ, 0 < c ∧ ∀ x y : ℤ,
      -gaussian_radius 1 4 ≤ x → x ≤ gaussian_radius 1 4 →
      -gaussian_radius 1 4 ≤ y → y ≤ gaussian_radius 1 4 →
      (gaussian_kernel 1 4).data (x + gaussian_radius 1 4).toNat
          (y + gaussian_radius 1 4).toNat
        = c * Real.exp (-(1 / 2) * ((x : ℝ) ^ 2 + (y : ℝ) ^ 2) / 1 ^ 2) :=
  gaussian_kernel_shape_weights 1 4 zero_lt_one zero_le_four

/-- Claim C9: the smoothing step of `create_contour` convolves the raw grid
(windowed mode, no mask) with a Gaussian kernel built from the sigma when
Gaussian smoothing is selected, and passes the grid through unchanged when
"none" is selected; it is a pure function of grid, selector and sigma. -/
theorem smoothing_pipeline_decision (g : Grid ℝ) (sigma : ℝ) :
    smoothed_array g SmoothingMethod.numpy_smoothing sigma
        = convolve g (gaussian_kernel sigma 4) none false ∧
    smoothed_array g SmoothingMethod.none_smoothing sigma = g :=
  ⟨rfl, rfl⟩

end Inasafe
